import Mathlib

/-!
Shallow embedding of the EDR-POC telemetry core (agent/core-c) and proofs
about it.  The definitions below are direct translations of the C sources:

* `event_buffer.c` / `event_buffer.h` — the SPSC transport queue of
  `edr_process_event_t` records (capacity `EVENT_BUFFER_SIZE = 4096`);
* `etw_process.c` / `etw_process.h` — the process-event consumer: LRU
  handle cache, START/END record parsers, the event callback;
* `etw_session.c` / `etw_session.h` — the session controller: the
  consumption-thread exit handler and `etw_session_stop`;
* `ring_buffer.c` — the generic pointer-storing SPSC ring buffer.

Machine integers are modelled as `Nat`/`Int`; index arithmetic keeps the
explicit `% EVENT_BUFFER_SIZE` of the source.  OS calls (OpenProcess,
QueryFullProcessImageNameA, token queries, WaitForSingleObject,
ControlTraceW, malloc) are passed in as explicit oracle values, and side
effects the OS would see (CloseHandle calls) are returned explicitly.
-/

/-! ### Error codes (edr_errors.h) and Windows status codes -/

def EDR_SUCCESS : Int := 0
def EDR_ERROR_INVALID_PARAM : Int := -2
def EDR_ERROR_ETW_STOP_FAILED : Int := -104
def EDR_ERROR_QUERY_PROCESS_FAILED : Int := -202
def EDR_ERROR_GET_TOKEN_FAILED : Int := -203
def EDR_ERROR_BUFFER_FULL : Int := -300
def EDR_ERROR_BUFFER_EMPTY : Int := -301

def ERROR_SUCCESS : Nat := 0
def ERROR_CANCELLED : Nat := 1223
def ERROR_WMI_INSTANCE_NOT_FOUND : Nat := 4201

/-! ### Canonical event model (edr_events.h) -/

/-- `edr_process_event_type_t`: EDR_PROCESS_START = 1, EDR_PROCESS_END = 2.
Kept as the raw C integer so that the `memset`-zeroed default (0) is
representable, exactly as in the C struct. -/
def EDR_PROCESS_START : Nat := 1
def EDR_PROCESS_END : Nat := 2

/-- `edr_process_event_t` (edr_events.h).  Text fields are modelled as
`String`, the 32-byte `sha256` as a list of bytes, `reserved` padding as a
list of words. -/
structure EdrProcessEvent where
  timestamp : Nat
  pid : Nat
  ppid : Nat
  process_name : String
  executable_path : String
  command_line : String
  username : String
  sha256 : List Nat
  event_type : Nat
  exit_code : Int
  deriving Repr, DecidableEq

/-- The all-zero event produced by `memset(out_event, 0, sizeof(...))`. -/
def zeroEvent : EdrProcessEvent :=
  { timestamp := 0, pid := 0, ppid := 0, process_name := "",
    executable_path := "", command_line := "", username := "",
    sha256 := List.replicate 32 0, event_type := 0, exit_code := 0 }

/-! ### Transport queue (event_buffer.h / event_buffer.c) -/

/-- `#define EVENT_BUFFER_SIZE 4096` -/
def EVENT_BUFFER_SIZE : Nat := 4096

/-- `event_buffer_t`: the slot array, the two indices, and the statistics
counters.  The slot array is modelled as a total map from slot index to
stored event. -/
@[ext]
structure EventBuffer where
  events : Nat → EdrProcessEvent
  write_pos : Nat
  read_pos : Nat
  total_pushed : Nat
  total_popped : Nat
  dropped_count : Nat
  peak_usage : Nat

/-- `event_buffer_create`: calloc-zeroed state. -/
def event_buffer_create : EventBuffer :=
  { events := fun _ => zeroEvent, write_pos := 0, read_pos := 0,
    total_pushed := 0, total_popped := 0, dropped_count := 0, peak_usage := 0 }

/-- `event_buffer_get_usage` (event_buffer.h):
`(w >= r) ? (w - r) : (SIZE - r + w)`. -/
def event_buffer_get_usage (b : EventBuffer) : Nat :=
  if b.read_pos ≤ b.write_pos then b.write_pos - b.read_pos
  else EVENT_BUFFER_SIZE - b.read_pos + b.write_pos

/-- `event_buffer_is_full` (event_buffer.h):
`(write_pos + 1) % EVENT_BUFFER_SIZE == read_pos`. -/
def event_buffer_is_full (b : EventBuffer) : Bool :=
  (b.write_pos + 1) % EVENT_BUFFER_SIZE == b.read_pos

/-- `event_buffer_is_empty` (event_buffer.h): `read_pos == write_pos`. -/
def event_buffer_is_empty (b : EventBuffer) : Bool :=
  b.read_pos == b.write_pos

/-- `event_buffer_push` (event_buffer.c, lines 65–108).  Returns the C
return code together with the successor state.  The
`InterlockedCompareExchange` retry loop for `peak_usage` is, in the
single-producer execution modelled here, the monotone update
`peak_usage := max peak_usage usage`. -/
def event_buffer_push (b : EventBuffer) (event : EdrProcessEvent) :
    Int × EventBuffer :=
  let current_write := b.write_pos
  let next_write := (current_write + 1) % EVENT_BUFFER_SIZE
  if next_write = b.read_pos then
    (EDR_ERROR_BUFFER_FULL, { b with dropped_count := b.dropped_count + 1 })
  else
    let b1 := { b with
      events := Function.update b.events current_write event,
      write_pos := next_write,
      total_pushed := b.total_pushed + 1 }
    let usage := event_buffer_get_usage b1
    let b2 := if b1.peak_usage < usage then { b1 with peak_usage := usage } else b1
    (EDR_SUCCESS, b2)

/-- `event_buffer_pop` (event_buffer.c, lines 113–140).  Returns the C
return code (1 on success, `EDR_ERROR_BUFFER_EMPTY` on empty), the popped
event if any, and the successor state. -/
def event_buffer_pop (b : EventBuffer) :
    Int × Option EdrProcessEvent × EventBuffer :=
  let current_read := b.read_pos
  if current_read = b.write_pos then
    (EDR_ERROR_BUFFER_EMPTY, none, b)
  else
    let out := b.events current_read
    let next_read := (current_read + 1) % EVENT_BUFFER_SIZE
    (1, some out,
     { b with read_pos := next_read, total_popped := b.total_popped + 1 })

/-- The `for` loop of `event_buffer_pop_batch`: up to `n` iterations, each
checking emptiness, copying the slot at `read_pos` out and advancing
`read_pos`; `total_popped` is not touched by the loop. -/
def event_buffer_pop_batch_loop :
    EventBuffer → Nat → List EdrProcessEvent × EventBuffer
  | b, 0 => ([], b)
  | b, n + 1 =>
    if b.read_pos = b.write_pos then ([], b)
    else
      let e := b.events b.read_pos
      let b1 := { b with read_pos := (b.read_pos + 1) % EVENT_BUFFER_SIZE }
      let rest := event_buffer_pop_batch_loop b1 n
      (e :: rest.1, rest.2)

/-- `event_buffer_pop_batch` (event_buffer.c, lines 145–182).  Guard
`max_count <= 0` returns 0 events; afterwards `total_popped` is bumped
once by the loop count when it is positive. -/
def event_buffer_pop_batch (b : EventBuffer) (max_count : Int) :
    List EdrProcessEvent × EventBuffer :=
  if max_count ≤ 0 then ([], b)
  else
    let r := event_buffer_pop_batch_loop b max_count.toNat
    if 0 < r.1.length then
      (r.1, { r.2 with total_popped := r.2.total_popped + r.1.length })
    else r

/-! ### Abstraction of the buffer state -/

/-- Both indices in range; true of the created buffer and preserved by
every operation, hence true of every reachable state. -/
def EventBuffer.wf (b : EventBuffer) : Prop :=
  b.write_pos < EVENT_BUFFER_SIZE ∧ b.read_pos < EVENT_BUFFER_SIZE

instance (b : EventBuffer) : Decidable b.wf := by
  unfold EventBuffer.wf; infer_instance

/-- Number of stored events: `(write - read) mod capacity`. -/
def bufCount (b : EventBuffer) : Nat :=
  (b.write_pos + EVENT_BUFFER_SIZE - b.read_pos) % EVENT_BUFFER_SIZE

/-- The stored events in FIFO order, oldest first. -/
def bufContents (b : EventBuffer) : List EdrProcessEvent :=
  (List.range (bufCount b)).map
    (fun i => b.events ((b.read_pos + i) % EVENT_BUFFER_SIZE))

theorem bufContents_length (b : EventBuffer) :
    (bufContents b).length = bufCount b := by
  simp [bufContents]

theorem event_buffer_create_wf : event_buffer_create.wf := by
  constructor <;> simp [event_buffer_create, EVENT_BUFFER_SIZE]

theorem event_buffer_push_wf (b : EventBuffer) (e : EdrProcessEvent)
    (hb : b.wf) : (event_buffer_push b e).2.wf := by
  obtain ⟨hw, hr⟩ := hb
  unfold event_buffer_push
  dsimp only
  split
  · exact ⟨hw, hr⟩
  · constructor <;>
    · simp only [EVENT_BUFFER_SIZE] at *
      split <;> simp <;> omega

theorem event_buffer_pop_wf (b : EventBuffer) (hb : b.wf) :
    (event_buffer_pop b).2.2.wf := by
  obtain ⟨hw, hr⟩ := hb
  unfold event_buffer_pop
  dsimp only
  split
  · exact ⟨hw, hr⟩
  · exact ⟨hw, by simp only [EVENT_BUFFER_SIZE] at *; omega⟩

/-! ### Call-sequence drivers over the buffer operations

These iterate the translated operations, to state claims about sequences
of calls (pushes with no intervening pop, repeated single pops). -/

/-- Push each event of the list in order, counting successful pushes
(`EDR_SUCCESS` return codes). -/
def event_buffer_push_run (b : EventBuffer) :
    List EdrProcessEvent → Nat × EventBuffer
  | [] => (0, b)
  | e :: es =>
    let r := event_buffer_push b e
    let rest := event_buffer_push_run r.2 es
    ((if r.1 = EDR_SUCCESS then 1 else 0) + rest.1, rest.2)

/-- Call `event_buffer_pop` up to `n` times, collecting the popped events
in order; stops early on the buffer-empty return. -/
def event_buffer_pop_run : Nat → EventBuffer → List EdrProcessEvent × EventBuffer
  | 0, b => ([], b)
  | n + 1, b =>
    let r := event_buffer_pop b
    match r.2.1 with
    | none => ([], r.2.2)
    | some e =>
      let rest := event_buffer_pop_run n r.2.2
      (e :: rest.1, rest.2)

/-- Proof-side abbreviation: the buffer with `read_pos` advanced by `m`
slots (counters and slots untouched). -/
def advanceRead (b : EventBuffer) (m : Nat) : EventBuffer :=
  { b with read_pos := (b.read_pos + m) % EVENT_BUFFER_SIZE }

/-- A buffer whose next push finds it full: `write_pos` one slot behind
`read_pos = 0`. -/
def fullBuffer : EventBuffer :=
  { event_buffer_create with write_pos := EVENT_BUFFER_SIZE - 1 }

/-- The round-trip example event of the specification: pid 1234, ppid 567,
type START, name "test.exe", path "C:\test\test.exe". -/
def testEvent : EdrProcessEvent :=
  { zeroEvent with
    pid := 1234, ppid := 567, event_type := EDR_PROCESS_START,
    process_name := "test.exe", executable_path := "C:\\test\\test.exe" }

/-! ### Handle cache (etw_process.h / etw_process.c) -/

/-- `#define PROCESS_HANDLE_CACHE_SIZE 256` -/
def PROCESS_HANDLE_CACHE_SIZE : Nat := 256

/-- `process_handle_cache_entry_t`.  A `HANDLE` is modelled as an opaque
numeric identifier; the C `NULL` handle is `none`. -/
structure ProcessHandleCacheEntry where
  pid : Nat
  handle : Option Nat
  last_access : Nat
  deriving Repr, DecidableEq

/-- `etw_process_consumer_t` (without the buffer pointer, which the
callback model threads separately).  The fixed 256-entry array is a total
map from index to entry; only indices `< PROCESS_HANDLE_CACHE_SIZE` are
meaningful. -/
structure EtwProcessConsumer where
  handle_cache : Nat → ProcessHandleCacheEntry
  cache_used : Nat
  total_events : Nat
  parse_errors : Nat

/-- `etw_process_consumer_create`: zeroed cache, zero counters. -/
def etw_process_consumer_create : EtwProcessConsumer :=
  { handle_cache := fun _ => { pid := 0, handle := none, last_access := 0 },
    cache_used := 0, total_events := 0, parse_errors := 0 }

/-- The cache-lookup loop of `etw_get_process_handle`
(`for i in 0..cache_used-1: if cache[i].pid == pid return i`): index of the
first entry among the first `used` whose pid matches. -/
def cache_find (cache : Nat → ProcessHandleCacheEntry) (used pid : Nat) :
    Option Nat :=
  match used with
  | 0 => none
  | u + 1 =>
    match cache_find cache u pid with
    | some i => some i
    | none => if (cache u).pid = pid then some u else none

/-- The LRU scan of `etw_get_process_handle`
(`lru_index = 0; min = cache[0].last_access; for i in 1..SIZE-1 ...`):
`lru_scan cache k` is the pair (index, access time) of the first minimal
`last_access` among indices `0..k`. -/
def lru_scan (cache : Nat → ProcessHandleCacheEntry) : Nat → Nat × Nat
  | 0 => (0, (cache 0).last_access)
  | i + 1 =>
    let r := lru_scan cache i
    if (cache (i + 1)).last_access < r.2 then (i + 1, (cache (i + 1)).last_access)
    else r

/-- `etw_get_process_handle` (etw_process.c, lines 78–136).  `current_time`
stands for `GetTickCount64()` and `openProcess` for the result of the
`OpenProcess` call (`none` = NULL).  The result carries the returned
handle, the successor consumer state, and the list of handles passed to
`CloseHandle` during the call. -/
def etw_get_process_handle (c : EtwProcessConsumer) (pid : Nat)
    (current_time : Nat) (openProcess : Option Nat) :
    Option Nat × EtwProcessConsumer × List Nat :=
  if pid = 0 then (none, c, [])
  else
    match cache_find c.handle_cache c.cache_used pid with
    | some i =>
      let refreshed := { c.handle_cache i with last_access := current_time }
      (( c.handle_cache i).handle,
       { c with handle_cache := Function.update c.handle_cache i refreshed },
       [])
    | none =>
      match openProcess with
      | none => (none, c, [])
      | some handle =>
        let fresh : ProcessHandleCacheEntry :=
          { pid := pid, handle := some handle, last_access := current_time }
        if c.cache_used < PROCESS_HANDLE_CACHE_SIZE then
          (some handle,
           { c with
             handle_cache := Function.update c.handle_cache c.cache_used fresh,
             cache_used := c.cache_used + 1 },
           [])
        else
          let lru_index := (lru_scan c.handle_cache (PROCESS_HANDLE_CACHE_SIZE - 1)).1
          let closed :=
            match (c.handle_cache lru_index).handle with
            | some old => [old]
            | none => []
          (some handle,
           { c with handle_cache := Function.update c.handle_cache lru_index fresh },
           closed)

/-- Run a list of `etw_get_process_handle` calls, each given as
(pid, GetTickCount64 value, OpenProcess result); collects all handles
passed to `CloseHandle` across the calls. -/
def handle_lookup_run (c : EtwProcessConsumer) :
    List (Nat × Nat × Option Nat) → EtwProcessConsumer × List Nat
  | [] => (c, [])
  | step :: rest =>
    let r := etw_get_process_handle c step.1 step.2.1 step.2.2
    let t := handle_lookup_run r.2.1 rest
    (t.1, r.2.2 ++ t.2)

/-- The C4 scenario: `k` lookups of pids `p 0 .. p (k-1)` at times
`t 0 .. t (k-1)`, each `OpenProcess` succeeding with handle `h i`. -/
def lookupScenario (p h t : Nat → Nat) (k : Nat) :
    List (Nat × Nat × Option Nat) :=
  (List.range k).map fun i => (p i, t i, some (h i))

/-! ### Record parsing (etw_process.c) -/

/-- The fields of `EVENT_RECORD` the parsers read: header timestamp and
process id, the descriptor opcode, and `UserData` viewed as a list of
DWORDs with its byte length. -/
structure EventRecord where
  timestamp : Nat
  processId : Nat
  opcode : Nat
  userData : List Nat
  userDataLength : Nat
  deriving Repr, DecidableEq

/-- Results of the OS calls made while parsing one START record:
`openProcess`/`currentTime` feed `etw_get_process_handle`; `queryPath` is
the string written by `QueryFullProcessImageNameA` (`none` = failure);
`queryUser` is the `domain\user` string produced by the token query
(`none` = failure at any of its stages). -/
structure ParseOracles where
  currentTime : Nat
  openProcess : Option Nat
  queryPath : Option String
  queryUser : Option String

/-- `get_process_commandline` (etw_process.c, lines 157–168): the
simplified implementation always succeeds, writing a fixed placeholder. -/
def get_process_commandline (pid : Nat) : String :=
  "[CommandLine for PID " ++ toString pid ++ "]"

/-- The characters after the last backslash of the list, or `none` when no
backslash occurs (the `strrchr` result of etw_process.c, line 270). -/
def suffixAfterLastBackslash : List Char → Option (List Char)
  | [] => none
  | c :: rest =>
    match suffixAfterLastBackslash rest with
    | some suf => some suf
    | none => if c = '\\' then some rest else none

/-- `strrchr(path, '\\')`-based name extraction (etw_process.c, lines
270–274): the suffix after the last backslash, when any backslash occurs;
`strncpy_s(..., _TRUNCATE)` truncates it to 255 bytes. -/
def lastBackslashSuffix (s : String) : Option String :=
  (suffixAfterLastBackslash s.toList).map List.asString

/-- Enrichment step 1 (etw_process.c, line 267): `get_process_path` into
`executable_path`; the return value is ignored and on failure the field is
left as it was (zero from the earlier `memset`). -/
def apply_path_enrichment (o : ParseOracles) (ev : EdrProcessEvent) :
    EdrProcessEvent :=
  match o.queryPath with
  | some path => { ev with executable_path := path }
  | none => ev

/-- Enrichment step 2 (etw_process.c, lines 270–274): derive
`process_name` from the final path component when the path contains a
backslash, truncated by `strncpy_s(..., _TRUNCATE)`. -/
def apply_name_extraction (ev : EdrProcessEvent) : EdrProcessEvent :=
  match lastBackslashSuffix ev.executable_path with
  | some nm => { ev with process_name := nm.take 255 }
  | none => ev

/-- Enrichment step 3 (etw_process.c, lines 277–278):
`get_process_commandline` always succeeds with the placeholder text. -/
def apply_commandline_enrichment (rec : EventRecord) (ev : EdrProcessEvent) :
    EdrProcessEvent :=
  { ev with command_line := get_process_commandline rec.processId }

/-- Enrichment step 4 (etw_process.c, line 281): `get_process_user` into
`username`; the return value is ignored and on failure the field stays
empty. -/
def apply_user_enrichment (o : ParseOracles) (ev : EdrProcessEvent) :
    EdrProcessEvent :=
  match o.queryUser with
  | some u => { ev with username := u }
  | none => ev

/-- Enrichment step 5 (etw_process.c, lines 284–286): `calculate_file_hash`
is attempted only when the path is non-empty; the placeholder writes 32
zero bytes (which the `memset` had already left there). -/
def apply_hash_placeholder (ev : EdrProcessEvent) : EdrProcessEvent :=
  if ev.executable_path ≠ "" then { ev with sha256 := List.replicate 32 0 }
  else ev

/-- `etw_parse_process_start` (etw_process.c, lines 235–294).  Returns the
C return code, the written `out_event`, the successor consumer state, and
the handles closed (by the cache) during the call. -/
def etw_parse_process_start (c : EtwProcessConsumer) (rec : EventRecord)
    (o : ParseOracles) :
    Int × EdrProcessEvent × EtwProcessConsumer × List Nat :=
  let ev1 := { zeroEvent with
    timestamp := rec.timestamp, pid := rec.processId,
    event_type := EDR_PROCESS_START }
  let ev2 :=
    if 4 ≤ rec.userDataLength then { ev1 with ppid := rec.userData.headD 0 }
    else ev1
  let r := etw_get_process_handle c rec.processId o.currentTime o.openProcess
  match r.1 with
  | some _ =>
    let ev7 :=
      apply_hash_placeholder
        (apply_user_enrichment o
          (apply_commandline_enrichment rec
            (apply_name_extraction (apply_path_enrichment o ev2))))
    (EDR_SUCCESS, ev7, r.2.1, r.2.2)
  | none =>
    let ev3 := { ev2 with process_name := "[Access Denied]" }
    (EDR_SUCCESS, ev3,
     { r.2.1 with parse_errors := r.2.1.parse_errors + 1 }, r.2.2)

/-- `etw_parse_process_end` (etw_process.c, lines 299–325). -/
def etw_parse_process_end (rec : EventRecord) : Int × EdrProcessEvent :=
  let ev1 := { zeroEvent with
    timestamp := rec.timestamp, pid := rec.processId,
    event_type := EDR_PROCESS_END }
  let ev2 :=
    if 4 ≤ rec.userDataLength then
      { ev1 with exit_code := Int.ofNat (rec.userData.headD 0) }
    else ev1
  (EDR_SUCCESS, ev2)

/-- `etw_process_event_callback` (etw_process.c, lines 330–372): bump
`total_events`, dispatch on opcode (1 = START, 2 = END, otherwise
return), push the parsed event on success, count a parse error
otherwise. -/
def etw_process_event_callback (c : EtwProcessConsumer) (b : EventBuffer)
    (rec : EventRecord) (o : ParseOracles) :
    EtwProcessConsumer × EventBuffer × List Nat :=
  let c1 := { c with total_events := c.total_events + 1 }
  if rec.opcode = 1 then
    let r := etw_parse_process_start c1 rec o
    if r.1 = EDR_SUCCESS then
      (r.2.2.1, (event_buffer_push b r.2.1).2, r.2.2.2)
    else
      ({ r.2.2.1 with parse_errors := r.2.2.1.parse_errors + 1 }, b, r.2.2.2)
  else if rec.opcode = 2 then
    let r := etw_parse_process_end rec
    if r.1 = EDR_SUCCESS then (c1, (event_buffer_push b r.2).2, [])
    else ({ c1 with parse_errors := c1.parse_errors + 1 }, b, [])
  else (c1, b, [])

/-! ### Session controller (etw_session.h / etw_session.c) -/

/-- `#define ETW_MAX_RESTART_RETRY 3` -/
def ETW_MAX_RESTART_RETRY : Nat := 3

/-- The `etw_session_t` fields the stop path and the thread-exit handler
touch.  Handles are numeric (0 = closed/NULL); `consume_thread` records
whether a thread handle is held. -/
structure EtwSession where
  session_handle : Nat
  trace_handle : Nat
  consume_thread : Bool
  is_running : Bool
  restart_count : Nat
  deriving Repr, DecidableEq

/-- The tail of `consume_thread_func` (etw_session.c, lines 29–48) after
`ProcessTrace` returns with `status`: on an abnormal status the session is
marked not running, and the restart branch is entered only while
`restart_count < ETW_MAX_RESTART_RETRY`.  The boolean result records
whether that restart branch was taken (the restart itself is a TODO in the
source). -/
def consume_thread_exit (s : EtwSession) (status : Nat) : EtwSession × Bool :=
  if status ≠ ERROR_SUCCESS ∧ status ≠ ERROR_CANCELLED then
    let s1 := { s with is_running := false }
    if s1.restart_count < ETW_MAX_RESTART_RETRY then
      ({ s1 with restart_count := s1.restart_count + 1 }, true)
    else (s1, false)
  else (s, false)

/-- OS results consumed by `etw_session_stop`: whether the consumption
thread exited within the 5000 ms `WaitForSingleObject` bound, and the
`ControlTraceW(STOP)` status. -/
structure StopOracles where
  threadExitedInBound : Bool
  controlTraceStatus : Nat
  deriving Repr, DecidableEq

/-- `etw_session_stop` (etw_session.c, lines 252–293).  Note that the
source calls `WaitForSingleObject(thread, 5000)` and discards its result:
the translation takes `o.threadExitedInBound` but, like the source, never
consults it. -/
def etw_session_stop (s : EtwSession) (o : StopOracles) : Int × EtwSession :=
  if ¬ s.is_running then (EDR_SUCCESS, s)
  else
    let s1 := { s with is_running := false }
    let s2 := if s1.trace_handle ≠ 0 then { s1 with trace_handle := 0 } else s1
    let s3 := if s2.consume_thread then { s2 with consume_thread := false } else s2
    if s3.session_handle ≠ 0 then
      let s4 := { s3 with session_handle := 0 }
      if o.controlTraceStatus ≠ ERROR_SUCCESS ∧
         o.controlTraceStatus ≠ ERROR_WMI_INSTANCE_NOT_FOUND then
        (EDR_ERROR_ETW_STOP_FAILED, s4)
      else (EDR_SUCCESS, s4)
    else (EDR_SUCCESS, s3)

/-! ### Generic SPSC ring buffer (ring_buffer.c) -/

/-- `is_power_of_two` (ring_buffer.c, lines 20–22):
`n > 0 && (n & (n - 1)) == 0`. -/
def is_power_of_two (n : Nat) : Bool :=
  0 < n && n &&& (n - 1) == 0

/-- `edr_ring_buffer_t`: slot array of event pointers (`none` = NULL),
capacity, mask, head/tail indices. -/
structure EdrRingBuffer where
  slots : Nat → Option Nat
  capacity : Nat
  mask : Nat
  head : Nat
  tail : Nat

/-- `ring_buffer_create` (ring_buffer.c, lines 60–83).  `rbAllocOk` and
`slotsAllocOk` stand for the outcomes of the `malloc`/`calloc` calls; the
second component counts how many heap allocations were attempted, so the
no-allocation-on-invalid-capacity behaviour is observable. -/
def ring_buffer_create (capacity : Nat) (rbAllocOk slotsAllocOk : Bool) :
    Option EdrRingBuffer × Nat :=
  if ¬ is_power_of_two capacity then (none, 0)
  else if ¬ rbAllocOk then (none, 1)
  else if ¬ slotsAllocOk then (none, 2)
  else
    (some { slots := fun _ => none, capacity := capacity,
            mask := capacity - 1, head := 0, tail := 0 }, 2)

/-! ### Concrete parse scenarios -/

/-- A concrete START record: timestamp 100, pid 42, opcode 1, one DWORD of
payload carrying parent pid 7. -/
def c5Record : EventRecord :=
  { timestamp := 100, processId := 42, opcode := 1,
    userData := [7], userDataLength := 4 }

/-- Oracle results where the handle opens, the path query succeeds and the
user-identity query fails. -/
def c5Oracles : ParseOracles :=
  { currentTime := 5, openProcess := some 11,
    queryPath := some "C:\\w\\a.exe", queryUser := none }

/-- A concrete START record: timestamp 55, pid 77, opcode 1, one DWORD of
payload carrying parent pid 9. -/
def c8Record : EventRecord :=
  { timestamp := 55, processId := 77, opcode := 1,
    userData := [9], userDataLength := 4 }

/-- Oracle results where `OpenProcess` fails (NULL handle). -/
def c8Oracles : ParseOracles :=
  { currentTime := 1, openProcess := none,
    queryPath := none, queryUser := none }

/-! ### Proof-side abbreviations for the three cache branch results -/

/-- Successor consumer state of a cache hit at index `i`: only
`last_access` of entry `i` is refreshed. -/
def cacheRefresh (c : EtwProcessConsumer) (i now : Nat) : EtwProcessConsumer :=
  let refreshed := { c.handle_cache i with last_access := now }
  { c with handle_cache := Function.update c.handle_cache i refreshed }

/-- Successor consumer state of a miss with free capacity: the new entry
is appended at index `cache_used`. -/
def cacheInsert (c : EtwProcessConsumer) (pid now hdl : Nat) :
    EtwProcessConsumer :=
  let fresh : ProcessHandleCacheEntry :=
    { pid := pid, handle := some hdl, last_access := now }
  { c with
    handle_cache := Function.update c.handle_cache c.cache_used fresh,
    cache_used := c.cache_used + 1 }

/-- Successor consumer state of a miss with a full cache: the entry at the
LRU index is replaced. -/
def cacheEvict (c : EtwProcessConsumer) (pid now hdl : Nat) :
    EtwProcessConsumer :=
  let lru_index := (lru_scan c.handle_cache (PROCESS_HANDLE_CACHE_SIZE - 1)).1
  let fresh : ProcessHandleCacheEntry :=
    { pid := pid, handle := some hdl, last_access := now }
  { c with handle_cache := Function.update c.handle_cache lru_index fresh }

/-! ## Helper lemmas about the transport queue -/

theorem isFull_eq (b : EventBuffer) :
    event_buffer_is_full b = true ↔
      (b.write_pos + 1) % EVENT_BUFFER_SIZE = b.read_pos := by
  simp [event_buffer_is_full]

theorem bufCount_lt (b : EventBuffer) : bufCount b < EVENT_BUFFER_SIZE := by
  unfold bufCount EVENT_BUFFER_SIZE
  omega

theorem event_buffer_push_full (b : EventBuffer) (e : EdrProcessEvent)
    (h : (b.write_pos + 1) % EVENT_BUFFER_SIZE = b.read_pos) :
    event_buffer_push b e =
      (EDR_ERROR_BUFFER_FULL, { b with dropped_count := b.dropped_count + 1 }) := by
  unfold event_buffer_push
  simp [h]

theorem event_buffer_push_ok_fields (b : EventBuffer) (e : EdrProcessEvent)
    (h : (b.write_pos + 1) % EVENT_BUFFER_SIZE ≠ b.read_pos) :
    (event_buffer_push b e).1 = EDR_SUCCESS ∧
    (event_buffer_push b e).2.read_pos = b.read_pos ∧
    (event_buffer_push b e).2.write_pos = (b.write_pos + 1) % EVENT_BUFFER_SIZE ∧
    (event_buffer_push b e).2.events = Function.update b.events b.write_pos e ∧
    (event_buffer_push b e).2.total_pushed = b.total_pushed + 1 ∧
    (event_buffer_push b e).2.total_popped = b.total_popped ∧
    (event_buffer_push b e).2.dropped_count = b.dropped_count := by
  unfold event_buffer_push
  dsimp only
  rw [if_neg h]
  dsimp only
  split <;> exact ⟨rfl, rfl, rfl, rfl, rfl, rfl, rfl⟩

theorem bufCount_push (b : EventBuffer) (e : EdrProcessEvent) (hb : b.wf)
    (h : (b.write_pos + 1) % EVENT_BUFFER_SIZE ≠ b.read_pos) :
    bufCount (event_buffer_push b e).2 = bufCount b + 1 := by
  obtain ⟨hw, hr⟩ := hb
  obtain ⟨-, hrd, hwr, -⟩ := event_buffer_push_ok_fields b e h
  unfold bufCount
  rw [hrd, hwr]
  simp only [EVENT_BUFFER_SIZE] at *
  omega

theorem bufContents_nil (b : EventBuffer) (h : b.read_pos = b.write_pos) :
    bufContents b = [] := by
  have h0 : bufCount b = 0 := by
    unfold bufCount
    simp only [EVENT_BUFFER_SIZE, h]
    omega
  simp [bufContents, h0]

theorem bufCount_ne_zero (b : EventBuffer) (hb : b.wf)
    (h : b.read_pos ≠ b.write_pos) : bufCount b ≠ 0 := by
  obtain ⟨hw, hr⟩ := hb
  unfold bufCount
  simp only [EVENT_BUFFER_SIZE] at *
  omega

theorem bufContents_cons (b : EventBuffer) (hb : b.wf)
    (h : b.read_pos ≠ b.write_pos) :
    bufContents b = b.events b.read_pos :: bufContents (advanceRead b 1) := by
  obtain ⟨hw, hr⟩ := hb
  have hk : bufCount b ≠ 0 := bufCount_ne_zero b ⟨hw, hr⟩ h
  obtain ⟨m, hm⟩ : ∃ m, bufCount b = m + 1 := ⟨bufCount b - 1, by omega⟩
  have hm1 : bufCount (advanceRead b 1) = m := by
    unfold bufCount advanceRead at *
    simp only [EVENT_BUFFER_SIZE] at *
    omega
  unfold bufContents
  rw [hm, hm1, List.range_succ_eq_map, List.map_cons, List.map_map]
  congr 1
  · rw [Nat.add_zero, Nat.mod_eq_of_lt hr]
  · apply List.map_congr_left
    intro i hi
    simp only [Function.comp_apply, advanceRead]
    congr 1
    simp only [EVENT_BUFFER_SIZE] at *
    omega

theorem advanceRead_zero (b : EventBuffer) (hb : b.wf) : advanceRead b 0 = b := by
  unfold advanceRead
  rw [Nat.add_zero, Nat.mod_eq_of_lt hb.2]

theorem advanceRead_wf (b : EventBuffer) (hb : b.wf) (m : Nat) :
    (advanceRead b m).wf := by
  refine ⟨hb.1, ?_⟩
  show (b.read_pos + m) % EVENT_BUFFER_SIZE < EVENT_BUFFER_SIZE
  simp only [EVENT_BUFFER_SIZE]
  omega

theorem advanceRead_advanceRead (b : EventBuffer) (k m : Nat) :
    advanceRead (advanceRead b k) m = advanceRead b (k + m) := by
  unfold advanceRead
  ext <;> simp only
  simp only [EVENT_BUFFER_SIZE]
  omega

theorem bufContents_push (b : EventBuffer) (e : EdrProcessEvent) (hb : b.wf)
    (h : (b.write_pos + 1) % EVENT_BUFFER_SIZE ≠ b.read_pos) :
    bufContents (event_buffer_push b e).2 = bufContents b ++ [e] := by
  obtain ⟨hw, hr⟩ := hb
  obtain ⟨-, hrd, hwr, hev, -⟩ := event_buffer_push_ok_fields b e h
  have hc := bufCount_push b e ⟨hw, hr⟩ h
  unfold bufContents
  rw [hc, hrd, hev, List.range_succ, List.map_append, List.map_singleton]
  congr 1
  · apply List.map_congr_left
    intro i hi
    rw [List.mem_range] at hi
    apply Function.update_noteq
    unfold bufCount at *
    simp only [EVENT_BUFFER_SIZE] at *
    omega
  · have hww : (b.read_pos + bufCount b) % EVENT_BUFFER_SIZE = b.write_pos := by
      unfold bufCount
      simp only [EVENT_BUFFER_SIZE] at *
      omega
    rw [hww, Function.update_same]

theorem event_buffer_pop_empty (b : EventBuffer) (h : b.read_pos = b.write_pos) :
    event_buffer_pop b = (EDR_ERROR_BUFFER_EMPTY, none, b) := by
  unfold event_buffer_pop
  simp [h]

theorem event_buffer_pop_spec (b : EventBuffer) (h : b.read_pos ≠ b.write_pos) :
    event_buffer_pop b = (1, some (b.events b.read_pos),
      { b with read_pos := (b.read_pos + 1) % EVENT_BUFFER_SIZE,
               total_popped := b.total_popped + 1 }) := by
  unfold event_buffer_pop
  simp [h]

theorem pop_batch_loop_spec (n : Nat) : ∀ (b : EventBuffer), b.wf →
    event_buffer_pop_batch_loop b n =
      ((bufContents b).take n, advanceRead b (min n (bufCount b))) := by
  induction n with
  | zero =>
    intro b hb
    rw [event_buffer_pop_batch_loop, List.take_zero, Nat.zero_min,
        advanceRead_zero b hb]
  | succ n ih =>
    intro b hb
    rw [event_buffer_pop_batch_loop]
    by_cases h : b.read_pos = b.write_pos
    · rw [if_pos h, bufContents_nil b h]
      have h0 : bufCount b = 0 := by
        unfold bufCount
        simp only [EVENT_BUFFER_SIZE, h]
        omega
      rw [h0, List.take_nil, Nat.min_zero, advanceRead_zero b hb]
    · rw [if_neg h]
      dsimp only
      have hb1 : (advanceRead b 1).wf := advanceRead_wf b hb 1
      have heq : ({ b with read_pos := (b.read_pos + 1) % EVENT_BUFFER_SIZE }
          : EventBuffer) = advanceRead b 1 := rfl
      rw [heq, ih (advanceRead b 1) hb1]
      have hk : bufCount b ≠ 0 := bufCount_ne_zero b hb h
      have hm1 : bufCount (advanceRead b 1) = bufCount b - 1 := by
        obtain ⟨hw, hr⟩ := hb
        unfold bufCount advanceRead
        simp only [EVENT_BUFFER_SIZE] at hw hr ⊢
        omega
      rw [bufContents_cons b hb h, List.take_succ_cons, hm1,
          advanceRead_advanceRead]
      have : 1 + min n (bufCount b - 1) = min (n + 1) (bufCount b) := by omega
      rw [this]

theorem pop_run_take (n : Nat) : ∀ (b : EventBuffer), b.wf →
    (event_buffer_pop_run n b).1 = (bufContents b).take n := by
  induction n with
  | zero => intro b _; rw [event_buffer_pop_run, List.take_zero]
  | succ n ih =>
    intro b hb
    rw [event_buffer_pop_run]
    by_cases h : b.read_pos = b.write_pos
    · rw [event_buffer_pop_empty b h, bufContents_nil b h, List.take_nil]
    · rw [event_buffer_pop_spec b h]
      dsimp only
      have hb1 : ({ b with
          read_pos := (b.read_pos + 1) % EVENT_BUFFER_SIZE
          total_popped := b.total_popped + 1 } : EventBuffer).wf := by
        refine ⟨hb.1, ?_⟩
        show (b.read_pos + 1) % EVENT_BUFFER_SIZE < EVENT_BUFFER_SIZE
        simp only [EVENT_BUFFER_SIZE]
        omega
      rw [ih _ hb1, bufContents_cons b hb h, List.take_succ_cons]
      rfl

theorem push_run_le (es : List EdrProcessEvent) : ∀ (b : EventBuffer), b.wf →
    (event_buffer_push_run b es).1 + bufCount b ≤ EVENT_BUFFER_SIZE - 1 := by
  induction es with
  | nil =>
    intro b hb
    rw [event_buffer_push_run]
    have := bufCount_lt b
    simp only [EVENT_BUFFER_SIZE] at *
    omega
  | cons e es ih =>
    intro b hb
    rw [event_buffer_push_run]
    by_cases h : (b.write_pos + 1) % EVENT_BUFFER_SIZE = b.read_pos
    · rw [event_buffer_push_full b e h]
      dsimp only
      have hcode : ¬ (EDR_ERROR_BUFFER_FULL = EDR_SUCCESS) := by decide
      rw [if_neg hcode]
      have hwf : ({ b with dropped_count := b.dropped_count + 1 }
          : EventBuffer).wf := hb
      have := ih _ hwf
      have hcnt : bufCount ({ b with dropped_count := b.dropped_count + 1 }
          : EventBuffer) = bufCount b := rfl
      omega
    · obtain ⟨hcode, -⟩ := event_buffer_push_ok_fields b e h
      rw [hcode, if_pos rfl]
      have hwf := event_buffer_push_wf b e hb
      have hcnt := bufCount_push b e hb h
      have := ih _ hwf
      omega

/-! ## Claim theorems: transport queue -/

/-- C1: the capacity `EVENT_BUFFER_SIZE` is a power of two; from any
well-formed (hence any reachable) buffer state, a sequence of pushes with
no intervening pop succeeds at most `EVENT_BUFFER_SIZE - 1` times; and a
push that finds the buffer full (`(write+1) mod capacity == read`) returns
`EDR_ERROR_BUFFER_FULL` and changes nothing except incrementing
`dropped_count` by exactly 1 (in particular the event is not stored). -/
theorem claim_C1 (b : EventBuffer) (hb : b.wf) :
    EVENT_BUFFER_SIZE = 2 ^ 12 ∧
    (∀ es : List EdrProcessEvent,
      (event_buffer_push_run b es).1 ≤ EVENT_BUFFER_SIZE - 1) ∧
    (∀ e : EdrProcessEvent, event_buffer_is_full b = true →
      event_buffer_push b e =
        (EDR_ERROR_BUFFER_FULL,
         { b with dropped_count := b.dropped_count + 1 })) := by
  refine ⟨rfl, ?_, ?_⟩
  · intro es
    have := push_run_le es b hb
    omega
  · intro e hfull
    exact event_buffer_push_full b e ((isFull_eq b).mp hfull)

theorem claim_C1_witness :
    fullBuffer.wf ∧ event_buffer_is_full fullBuffer = true ∧
    (event_buffer_push_run fullBuffer [zeroEvent, zeroEvent]).1
      ≤ EVENT_BUFFER_SIZE - 1 ∧
    event_buffer_push fullBuffer zeroEvent =
      (EDR_ERROR_BUFFER_FULL,
       { fullBuffer with dropped_count := fullBuffer.dropped_count + 1 }) := by
  have hwf : fullBuffer.wf := by decide
  have hfull : event_buffer_is_full fullBuffer = true := by decide
  exact ⟨hwf, hfull, (claim_C1 fullBuffer hwf).2.1 [zeroEvent, zeroEvent],
         (claim_C1 fullBuffer hwf).2.2 zeroEvent hfull⟩

/-- C9: when `event_buffer_push` finds the buffer full, the only state
change is `dropped_count := dropped_count + 1`: the slot array, both
indices, `total_pushed`, `total_popped` and `peak_usage` are unchanged,
and the call returns `EDR_ERROR_BUFFER_FULL` (the translated function is
total and performs no retry loop, mirroring the straight-line C code). -/
theorem claim_C9 (b : EventBuffer) (e : EdrProcessEvent)
    (h : event_buffer_is_full b = true) :
    (event_buffer_push b e).1 = EDR_ERROR_BUFFER_FULL ∧
    (event_buffer_push b e).2.events = b.events ∧
    (event_buffer_push b e).2.write_pos = b.write_pos ∧
    (event_buffer_push b e).2.read_pos = b.read_pos ∧
    (event_buffer_push b e).2.total_pushed = b.total_pushed ∧
    (event_buffer_push b e).2.total_popped = b.total_popped ∧
    (event_buffer_push b e).2.peak_usage = b.peak_usage ∧
    (event_buffer_push b e).2.dropped_count = b.dropped_count + 1 := by
  rw [event_buffer_push_full b e ((isFull_eq b).mp h)]
  exact ⟨rfl, rfl, rfl, rfl, rfl, rfl, rfl, rfl⟩

theorem claim_C9_witness :
    (event_buffer_push fullBuffer zeroEvent).1 = EDR_ERROR_BUFFER_FULL ∧
    (event_buffer_push fullBuffer zeroEvent).2.dropped_count
      = fullBuffer.dropped_count + 1 :=
  ⟨(claim_C9 fullBuffer zeroEvent (by decide)).1,
   (claim_C9 fullBuffer zeroEvent (by decide)).2.2.2.2.2.2.2⟩

/-- C2: for every `n > 0` and buffer holding `k = bufCount b` events,
`event_buffer_pop_batch` returns exactly `min n k` events — the first
`min n k` stored events in FIFO push order — and bumps `total_popped` once
by exactly that count. -/
theorem claim_C2 (b : EventBuffer) (hb : b.wf) (n : Int) (hn : 0 < n) :
    (event_buffer_pop_batch b n).1 = (bufContents b).take n.toNat ∧
    (event_buffer_pop_batch b n).1.length = min n.toNat (bufCount b) ∧
    (event_buffer_pop_batch b n).2.total_popped
      = b.total_popped + min n.toNat (bufCount b) := by
  unfold event_buffer_pop_batch
  rw [if_neg (by omega)]
  dsimp only
  rw [pop_batch_loop_spec n.toNat b hb]
  dsimp only
  have hlen : ((bufContents b).take n.toNat).length
      = min n.toNat (bufCount b) := by
    rw [List.length_take, bufContents_length]
  by_cases hpos : 0 < ((bufContents b).take n.toNat).length
  · rw [if_pos hpos]
    refine ⟨rfl, hlen, ?_⟩
    dsimp only
    rw [hlen]
    rfl
  · rw [if_neg hpos]
    refine ⟨rfl, hlen, ?_⟩
    have h0 : min n.toNat (bufCount b) = 0 := by omega
    rw [h0]
    simp [advanceRead]

theorem claim_C2_witness :
    fullBuffer.wf ∧ (0 : Int) < 100 ∧
    (event_buffer_pop_batch fullBuffer 100).1.length
      = min (100 : Int).toNat (bufCount fullBuffer) :=
  ⟨by decide, by decide, (claim_C2 fullBuffer (by decide) 100 (by decide)).2.1⟩

/-- C3: pushing any event into any non-full well-formed buffer succeeds,
appends the event (byte-for-byte, i.e. the whole record) to the stored
FIFO sequence, and popping the buffer down with `event_buffer_pop` yields
that exact event as the last one popped — every field equal to the pushed
value, since equality of `EdrProcessEvent` is field-wise. -/
theorem claim_C3 (b : EventBuffer) (e : EdrProcessEvent) (hb : b.wf)
    (hnf : event_buffer_is_full b = false) :
    (event_buffer_push b e).1 = EDR_SUCCESS ∧
    bufContents (event_buffer_push b e).2 = bufContents b ++ [e] ∧
    (event_buffer_pop_run (bufCount b + 1)
        (event_buffer_push b e).2).1.getLast? = some e := by
  have h : (b.write_pos + 1) % EVENT_BUFFER_SIZE ≠ b.read_pos := by
    simpa [event_buffer_is_full] using hnf
  obtain ⟨hcode, -⟩ := event_buffer_push_ok_fields b e h
  have happ := bufContents_push b e hb h
  refine ⟨hcode, happ, ?_⟩
  have hwf1 := event_buffer_push_wf b e hb
  rw [pop_run_take (bufCount b + 1) _ hwf1, happ]
  have hlen : (bufContents b ++ [e]).length = bufCount b + 1 := by
    simp [bufContents_length]
  rw [List.take_of_length_le (le_of_eq hlen)]
  simp

theorem claim_C3_witness :
    event_buffer_create.wf ∧
    event_buffer_is_full event_buffer_create = false ∧
    (event_buffer_pop_run (bufCount event_buffer_create + 1)
        (event_buffer_push event_buffer_create testEvent).2).1.getLast?
      = some testEvent :=
  ⟨by decide, by decide,
   (claim_C3 event_buffer_create testEvent (by decide) (by decide)).2.2⟩

/-! ## Helper lemmas about the handle cache -/

theorem cache_find_eq_none (cache : Nat → ProcessHandleCacheEntry)
    (pid : Nat) : ∀ used, (∀ j, j < used → (cache j).pid ≠ pid) →
    cache_find cache used pid = none := by
  intro used
  induction used with
  | zero => intro _; rfl
  | succ u ih =>
    intro hne
    rw [cache_find, ih (fun j hj => hne j (Nat.lt_succ_of_lt hj)),
        if_neg (hne u (Nat.lt_succ_self u))]

theorem cache_find_eq_some (cache : Nat → ProcessHandleCacheEntry)
    (pid i : Nat) (hpid : (cache i).pid = pid)
    (hfirst : ∀ j, j < i → (cache j).pid ≠ pid) :
    ∀ used, i < used → cache_find cache used pid = some i := by
  intro used
  induction used with
  | zero => intro hx; exact absurd hx (Nat.not_lt_zero i)
  | succ u ih =>
    intro hi
    rw [cache_find]
    rcases Nat.lt_or_ge i u with hlt | hge
    · rw [ih hlt]
    · have hiu : i = u := by omega
      rw [cache_find_eq_none cache pid u (fun j hj => hfirst j (by omega)),
          if_pos (hiu ▸ hpid), hiu]

theorem lru_scan_const (cache : Nat → ProcessHandleCacheEntry) :
    ∀ m, (∀ j, j ≤ m → ¬ (cache j).last_access < (cache 0).last_access) →
    lru_scan cache m = (0, (cache 0).last_access) := by
  intro m
  induction m with
  | zero => intro _; rfl
  | succ m ih =>
    intro hmin
    rw [lru_scan, ih (fun j hj => hmin j (Nat.le_succ_of_le hj))]
    exact if_neg (hmin (m + 1) (Nat.le_refl _))

theorem etw_get_process_handle_hit (c : EtwProcessConsumer)
    (pid now : Nat) (opn : Option Nat) (i : Nat) (hpid : pid ≠ 0)
    (hfind : cache_find c.handle_cache c.cache_used pid = some i) :
    etw_get_process_handle c pid now opn =
      ((c.handle_cache i).handle, cacheRefresh c i now, []) := by
  unfold etw_get_process_handle cacheRefresh
  rw [if_neg hpid, hfind]

theorem etw_get_process_handle_insert (c : EtwProcessConsumer)
    (pid now hdl : Nat) (hpid : pid ≠ 0)
    (hfind : cache_find c.handle_cache c.cache_used pid = none)
    (hlt : c.cache_used < PROCESS_HANDLE_CACHE_SIZE) :
    etw_get_process_handle c pid now (some hdl) =
      (some hdl, cacheInsert c pid now hdl, []) := by
  unfold etw_get_process_handle cacheInsert
  rw [if_neg hpid, hfind]
  dsimp only
  rw [if_pos hlt]

theorem etw_get_process_handle_evict (c : EtwProcessConsumer)
    (pid now hdl old : Nat) (hpid : pid ≠ 0)
    (hfind : cache_find c.handle_cache c.cache_used pid = none)
    (hge : ¬ c.cache_used < PROCESS_HANDLE_CACHE_SIZE)
    (hold : (c.handle_cache
        (lru_scan c.handle_cache (PROCESS_HANDLE_CACHE_SIZE - 1)).1).handle
      = some old) :
    etw_get_process_handle c pid now (some hdl) =
      (some hdl, cacheEvict c pid now hdl, [old]) := by
  unfold etw_get_process_handle cacheEvict
  rw [if_neg hpid, hfind]
  dsimp only
  rw [if_neg hge, hold]

theorem handle_lookup_run_append (c : EtwProcessConsumer)
    (l1 l2 : List (Nat × Nat × Option Nat)) :
    handle_lookup_run c (l1 ++ l2) =
      ((handle_lookup_run (handle_lookup_run c l1).1 l2).1,
       (handle_lookup_run c l1).2
         ++ (handle_lookup_run (handle_lookup_run c l1).1 l2).2) := by
  induction l1 generalizing c with
  | nil => simp [handle_lookup_run]
  | cons s l1 ih =>
    rw [List.cons_append, handle_lookup_run, handle_lookup_run, ih]
    simp [List.append_assoc]

theorem handle_lookup_run_singleton (c : EtwProcessConsumer)
    (s : Nat × Nat × Option Nat) :
    handle_lookup_run c [s] =
      ((etw_get_process_handle c s.1 s.2.1 s.2.2).2.1,
       (etw_get_process_handle c s.1 s.2.1 s.2.2).2.2) := by
  simp [handle_lookup_run]

theorem lookupScenario_succ (p h t : Nat → Nat) (k : Nat) :
    lookupScenario p h t (k + 1) =
      lookupScenario p h t k ++ [(p k, t k, some (h k))] := by
  unfold lookupScenario
  rw [List.range_succ, List.map_append]
  rfl

theorem fill_spec (p h t : Nat → Nat)
    (hp0 : ∀ i, i ≤ PROCESS_HANDLE_CACHE_SIZE → p i ≠ 0)
    (hinj : ∀ i j, i < j → j ≤ PROCESS_HANDLE_CACHE_SIZE → p i ≠ p j) :
    ∀ k, k ≤ PROCESS_HANDLE_CACHE_SIZE →
      (handle_lookup_run etw_process_consumer_create
          (lookupScenario p h t k)).1.cache_used = k ∧
      (handle_lookup_run etw_process_consumer_create
          (lookupScenario p h t k)).2 = [] ∧
      (∀ j, j < k →
        (handle_lookup_run etw_process_consumer_create
            (lookupScenario p h t k)).1.handle_cache j
          = { pid := p j, handle := some (h j), last_access := t j }) ∧
      (∀ j, k ≤ j →
        (handle_lookup_run etw_process_consumer_create
            (lookupScenario p h t k)).1.handle_cache j
          = { pid := 0, handle := none, last_access := 0 }) := by
  intro k
  induction k with
  | zero =>
    intro _
    exact ⟨rfl, rfl, fun j hj => absurd hj (Nat.not_lt_zero j), fun j _ => rfl⟩
  | succ k ih =>
    intro hk1
    have hk : k ≤ PROCESS_HANDLE_CACHE_SIZE := Nat.le_of_succ_le hk1
    have hklt : k < PROCESS_HANDLE_CACHE_SIZE := hk1
    obtain ⟨hused, hclosed, hfill, hzero⟩ := ih hk
    rw [lookupScenario_succ, handle_lookup_run_append,
        handle_lookup_run_singleton]
    generalize hSg : handle_lookup_run etw_process_consumer_create
        (lookupScenario p h t k) = S at hused hclosed hfill hzero ⊢
    dsimp only
    have hpid : p k ≠ 0 := hp0 k hk
    have hfindS : cache_find S.1.handle_cache S.1.cache_used (p k) = none := by
      rw [hused]
      apply cache_find_eq_none
      intro j hj
      rw [hfill j hj]
      simpa using hinj j k hj hk
    have hltS : S.1.cache_used < PROCESS_HANDLE_CACHE_SIZE := by
      rw [hused]; exact hklt
    rw [etw_get_process_handle_insert S.1 (p k) (t k) (h k) hpid hfindS hltS]
    dsimp only
    refine ⟨?_, ?_, ?_, ?_⟩
    · simp [cacheInsert, hused]
    · simp [hclosed]
    · intro j hj
      simp only [cacheInsert]
      rw [hused, Function.update_apply]
      by_cases hjk : j = k
      · subst hjk
        rw [if_pos rfl]
      · rw [if_neg hjk]
        exact hfill j (by omega)
    · intro j hj
      simp only [cacheInsert]
      rw [hused, Function.update_apply, if_neg (by omega)]
      exact hzero j (by omega)

/-! ## Claim theorems: handle cache -/

/-- C4: starting from a freshly created consumer, after
`PROCESS_HANDLE_CACHE_SIZE + 1` lookups of pairwise-distinct nonzero pids
with strictly increasing access timestamps and every `OpenProcess`
succeeding, exactly one handle has been closed — that of the entry with
the oldest `last_access` (the first pid) — the evicted pid is no longer
cached, `cache_used` equals the capacity, and the slot of the evicted
entry now holds the newest pid.  Moreover a repeated lookup of a pid that
is still cached returns its cached handle, refreshes its `last_access` to
the new time, closes nothing and leaves `cache_used` unchanged. -/
theorem claim_C4 (p h t : Nat → Nat)
    (hp0 : ∀ i, i ≤ PROCESS_HANDLE_CACHE_SIZE → p i ≠ 0)
    (hinj : ∀ i j, i < j → j ≤ PROCESS_HANDLE_CACHE_SIZE → p i ≠ p j)
    (hmono : ∀ i j, i < j → j ≤ PROCESS_HANDLE_CACHE_SIZE → t i < t j) :
    ∀ r, r = handle_lookup_run etw_process_consumer_create
        (lookupScenario p h t (PROCESS_HANDLE_CACHE_SIZE + 1)) →
    r.1.cache_used = PROCESS_HANDLE_CACHE_SIZE ∧
    r.2 = [h 0] ∧
    r.1.handle_cache 0 =
      { pid := p PROCESS_HANDLE_CACHE_SIZE,
        handle := some (h PROCESS_HANDLE_CACHE_SIZE),
        last_access := t PROCESS_HANDLE_CACHE_SIZE } ∧
    (∀ j, 1 ≤ j → j < PROCESS_HANDLE_CACHE_SIZE →
      r.1.handle_cache j =
        { pid := p j, handle := some (h j), last_access := t j }) ∧
    (∀ j, j < PROCESS_HANDLE_CACHE_SIZE →
      (r.1.handle_cache j).pid ≠ p 0) ∧
    (∀ T opn,
      (etw_get_process_handle r.1 (p (PROCESS_HANDLE_CACHE_SIZE - 1)) T opn).1
        = some (h (PROCESS_HANDLE_CACHE_SIZE - 1)) ∧
      (etw_get_process_handle r.1 (p (PROCESS_HANDLE_CACHE_SIZE - 1))
          T opn).2.1.cache_used = PROCESS_HANDLE_CACHE_SIZE ∧
      (etw_get_process_handle r.1 (p (PROCESS_HANDLE_CACHE_SIZE - 1))
          T opn).2.1.handle_cache (PROCESS_HANDLE_CACHE_SIZE - 1) =
        { pid := p (PROCESS_HANDLE_CACHE_SIZE - 1),
          handle := some (h (PROCESS_HANDLE_CACHE_SIZE - 1)),
          last_access := T } ∧
      (etw_get_process_handle r.1 (p (PROCESS_HANDLE_CACHE_SIZE - 1))
          T opn).2.2 = []) := by
  intro r hr
  obtain ⟨hused, hclosed, hfill, -⟩ :=
    fill_spec p h t hp0 hinj PROCESS_HANDLE_CACHE_SIZE (Nat.le_refl _)
  subst hr
  rw [lookupScenario_succ, handle_lookup_run_append,
      handle_lookup_run_singleton]
  generalize hSg : handle_lookup_run etw_process_consumer_create
      (lookupScenario p h t PROCESS_HANDLE_CACHE_SIZE) = S
      at hused hclosed hfill ⊢
  dsimp only
  have hN : PROCESS_HANDLE_CACHE_SIZE = 256 := rfl
  have hNpos : 0 < PROCESS_HANDLE_CACHE_SIZE := by omega
  have hpid : p PROCESS_HANDLE_CACHE_SIZE ≠ 0 := hp0 _ (Nat.le_refl _)
  have hfindS : cache_find S.1.handle_cache S.1.cache_used
      (p PROCESS_HANDLE_CACHE_SIZE) = none := by
    rw [hused]
    apply cache_find_eq_none
    intro j hj
    rw [hfill j hj]
    simpa using hinj j _ hj (Nat.le_refl _)
  have hgeS : ¬ S.1.cache_used < PROCESS_HANDLE_CACHE_SIZE := by
    rw [hused]
    exact Nat.lt_irrefl _
  have hlru : (lru_scan S.1.handle_cache (PROCESS_HANDLE_CACHE_SIZE - 1)).1
      = 0 := by
    rw [lru_scan_const S.1.handle_cache (PROCESS_HANDLE_CACHE_SIZE - 1) ?_]
    intro j hj
    rw [hfill 0 hNpos, hfill j (by omega)]
    dsimp only
    rcases Nat.eq_zero_or_pos j with h0 | hpos
    · subst h0
      exact Nat.lt_irrefl _
    · have := hmono 0 j hpos (by omega)
      omega
  have hold : (S.1.handle_cache
      (lru_scan S.1.handle_cache (PROCESS_HANDLE_CACHE_SIZE - 1)).1).handle
      = some (h 0) := by
    rw [hlru, hfill 0 hNpos]
  rw [etw_get_process_handle_evict S.1 _ _ _ (h 0) hpid hfindS hgeS hold]
  dsimp only
  have hcache : ∀ j, (cacheEvict S.1 (p PROCESS_HANDLE_CACHE_SIZE)
      (t PROCESS_HANDLE_CACHE_SIZE) (h PROCESS_HANDLE_CACHE_SIZE)).handle_cache j
      = if j = 0
        then { pid := p PROCESS_HANDLE_CACHE_SIZE,
               handle := some (h PROCESS_HANDLE_CACHE_SIZE),
               last_access := t PROCESS_HANDLE_CACHE_SIZE }
        else S.1.handle_cache j := by
    intro j
    simp only [cacheEvict]
    rw [hlru, Function.update_apply]
  have hcu : (cacheEvict S.1 (p PROCESS_HANDLE_CACHE_SIZE)
      (t PROCESS_HANDLE_CACHE_SIZE) (h PROCESS_HANDLE_CACHE_SIZE)).cache_used
      = PROCESS_HANDLE_CACHE_SIZE := by
    simp only [cacheEvict]
    exact hused
  refine ⟨hcu, by rw [hclosed]; rfl, ?_, ?_, ?_, ?_⟩
  · rw [hcache 0, if_pos rfl]
  · intro j hj1 hjN
    rw [hcache j, if_neg (by omega)]
    exact hfill j hjN
  · intro j hjN
    rw [hcache j]
    by_cases hj0 : j = 0
    · rw [if_pos hj0]
      exact (hinj 0 PROCESS_HANDLE_CACHE_SIZE hNpos (Nat.le_refl _)).symm
    · rw [if_neg hj0, hfill j hjN]
      exact fun hc => (hinj 0 j (by omega) (by omega)) hc.symm
  · intro T opn
    have hpid1 : p (PROCESS_HANDLE_CACHE_SIZE - 1) ≠ 0 := hp0 _ (by omega)
    have hfindHit : cache_find (cacheEvict S.1 (p PROCESS_HANDLE_CACHE_SIZE)
        (t PROCESS_HANDLE_CACHE_SIZE) (h PROCESS_HANDLE_CACHE_SIZE)).handle_cache
        (cacheEvict S.1 (p PROCESS_HANDLE_CACHE_SIZE)
          (t PROCESS_HANDLE_CACHE_SIZE) (h PROCESS_HANDLE_CACHE_SIZE)).cache_used
        (p (PROCESS_HANDLE_CACHE_SIZE - 1))
        = some (PROCESS_HANDLE_CACHE_SIZE - 1) := by
      rw [hcu]
      apply cache_find_eq_some
      · rw [hcache _, if_neg (by omega), hfill _ (by omega)]
      · intro j hj
        rw [hcache j]
        by_cases hj0 : j = 0
        · rw [if_pos hj0]
          exact fun hc =>
            (hinj (PROCESS_HANDLE_CACHE_SIZE - 1) PROCESS_HANDLE_CACHE_SIZE
              (by omega) (Nat.le_refl _)) hc.symm
        · rw [if_neg hj0, hfill j (by omega)]
          exact fun hc =>
            (hinj j (PROCESS_HANDLE_CACHE_SIZE - 1) (by omega) (by omega)) hc
      · omega
    rw [etw_get_process_handle_hit _ _ T opn _ hpid1 hfindHit]
    dsimp only
    have hentry : (cacheEvict S.1 (p PROCESS_HANDLE_CACHE_SIZE)
        (t PROCESS_HANDLE_CACHE_SIZE)
        (h PROCESS_HANDLE_CACHE_SIZE)).handle_cache
        (PROCESS_HANDLE_CACHE_SIZE - 1)
        = { pid := p (PROCESS_HANDLE_CACHE_SIZE - 1),
            handle := some (h (PROCESS_HANDLE_CACHE_SIZE - 1)),
            last_access := t (PROCESS_HANDLE_CACHE_SIZE - 1) } := by
      rw [hcache _, if_neg (by omega)]
      exact hfill _ (by omega)
    refine ⟨by rw [hentry], ?_, ?_, rfl⟩
    · simp only [cacheRefresh]
      exact hcu
    · simp only [cacheRefresh]
      rw [Function.update_same, hentry]

theorem claim_C4_witness :
    (handle_lookup_run etw_process_consumer_create
      (lookupScenario (fun i => i + 1) (fun i => i + 1000) (fun i => i + 1)
        (PROCESS_HANDLE_CACHE_SIZE + 1))).2 = [1000] ∧
    (handle_lookup_run etw_process_consumer_create
      (lookupScenario (fun i => i + 1) (fun i => i + 1000) (fun i => i + 1)
        (PROCESS_HANDLE_CACHE_SIZE + 1))).1.cache_used
      = PROCESS_HANDLE_CACHE_SIZE := by
  have H := claim_C4 (fun i => i + 1) (fun i => i + 1000) (fun i => i + 1)
    (fun i _ => by show i + 1 ≠ 0; omega)
    (fun i j hij _ => by show i + 1 ≠ j + 1; omega)
    (fun i j hij _ => by show i + 1 < j + 1; omega)
    _ rfl
  exact ⟨H.2.1, H.1⟩

/-! ## Helper lemmas about the parser -/

theorem etw_get_process_handle_none (c : EtwProcessConsumer) (pid now : Nat)
    (hmiss : cache_find c.handle_cache c.cache_used pid = none) :
    etw_get_process_handle c pid now none = (none, c, []) := by
  unfold etw_get_process_handle
  by_cases hp : pid = 0
  · rw [if_pos hp]
  · rw [if_neg hp, hmiss]

theorem etw_get_process_handle_counters (c : EtwProcessConsumer)
    (pid now : Nat) (opn : Option Nat) :
    (etw_get_process_handle c pid now opn).2.1.parse_errors = c.parse_errors ∧
    (etw_get_process_handle c pid now opn).2.1.total_events = c.total_events := by
  unfold etw_get_process_handle
  dsimp only
  split
  · exact ⟨rfl, rfl⟩
  · split
    · exact ⟨rfl, rfl⟩
    · split
      · exact ⟨rfl, rfl⟩
      · split
        · exact ⟨rfl, rfl⟩
        · exact ⟨rfl, rfl⟩

theorem lastBackslashSuffix_empty : lastBackslashSuffix "" = none := by decide

/-! ## Field behaviour of the enrichment steps -/

theorem apply_path_executable (o : ParseOracles) (ev : EdrProcessEvent) :
    (apply_path_enrichment o ev).executable_path
      = o.queryPath.getD ev.executable_path := by
  unfold apply_path_enrichment
  cases o.queryPath <;> rfl

theorem apply_path_name (o : ParseOracles) (ev : EdrProcessEvent) :
    (apply_path_enrichment o ev).process_name = ev.process_name := by
  unfold apply_path_enrichment
  cases o.queryPath <;> rfl

theorem apply_path_cl (o : ParseOracles) (ev : EdrProcessEvent) :
    (apply_path_enrichment o ev).command_line = ev.command_line := by
  unfold apply_path_enrichment
  cases o.queryPath <;> rfl

theorem apply_path_user (o : ParseOracles) (ev : EdrProcessEvent) :
    (apply_path_enrichment o ev).username = ev.username := by
  unfold apply_path_enrichment
  cases o.queryPath <;> rfl

theorem apply_path_sha (o : ParseOracles) (ev : EdrProcessEvent) :
    (apply_path_enrichment o ev).sha256 = ev.sha256 := by
  unfold apply_path_enrichment
  cases o.queryPath <;> rfl

theorem apply_path_of_none (o : ParseOracles) (ev : EdrProcessEvent)
    (hqp : o.queryPath = none) : apply_path_enrichment o ev = ev := by
  unfold apply_path_enrichment
  rw [hqp]

theorem apply_name_exec (ev : EdrProcessEvent) :
    (apply_name_extraction ev).executable_path = ev.executable_path := by
  unfold apply_name_extraction
  cases lastBackslashSuffix ev.executable_path <;> rfl

theorem apply_name_cl (ev : EdrProcessEvent) :
    (apply_name_extraction ev).command_line = ev.command_line := by
  unfold apply_name_extraction
  cases lastBackslashSuffix ev.executable_path <;> rfl

theorem apply_name_user (ev : EdrProcessEvent) :
    (apply_name_extraction ev).username = ev.username := by
  unfold apply_name_extraction
  cases lastBackslashSuffix ev.executable_path <;> rfl

theorem apply_name_sha (ev : EdrProcessEvent) :
    (apply_name_extraction ev).sha256 = ev.sha256 := by
  unfold apply_name_extraction
  cases lastBackslashSuffix ev.executable_path <;> rfl

theorem apply_name_of_empty (ev : EdrProcessEvent)
    (hp : ev.executable_path = "") : apply_name_extraction ev = ev := by
  unfold apply_name_extraction
  rw [hp, lastBackslashSuffix_empty]

theorem apply_cl_cl (rec : EventRecord) (ev : EdrProcessEvent) :
    (apply_commandline_enrichment rec ev).command_line
      = get_process_commandline rec.processId := rfl

theorem apply_cl_exec (rec : EventRecord) (ev : EdrProcessEvent) :
    (apply_commandline_enrichment rec ev).executable_path
      = ev.executable_path := rfl

theorem apply_cl_name (rec : EventRecord) (ev : EdrProcessEvent) :
    (apply_commandline_enrichment rec ev).process_name = ev.process_name := rfl

theorem apply_cl_user (rec : EventRecord) (ev : EdrProcessEvent) :
    (apply_commandline_enrichment rec ev).username = ev.username := rfl

theorem apply_cl_sha (rec : EventRecord) (ev : EdrProcessEvent) :
    (apply_commandline_enrichment rec ev).sha256 = ev.sha256 := rfl

theorem apply_user_username (o : ParseOracles) (ev : EdrProcessEvent) :
    (apply_user_enrichment o ev).username = o.queryUser.getD ev.username := by
  unfold apply_user_enrichment
  cases o.queryUser <;> rfl

theorem apply_user_exec (o : ParseOracles) (ev : EdrProcessEvent) :
    (apply_user_enrichment o ev).executable_path = ev.executable_path := by
  unfold apply_user_enrichment
  cases o.queryUser <;> rfl

theorem apply_user_name (o : ParseOracles) (ev : EdrProcessEvent) :
    (apply_user_enrichment o ev).process_name = ev.process_name := by
  unfold apply_user_enrichment
  cases o.queryUser <;> rfl

theorem apply_user_cl (o : ParseOracles) (ev : EdrProcessEvent) :
    (apply_user_enrichment o ev).command_line = ev.command_line := by
  unfold apply_user_enrichment
  cases o.queryUser <;> rfl

theorem apply_user_sha (o : ParseOracles) (ev : EdrProcessEvent) :
    (apply_user_enrichment o ev).sha256 = ev.sha256 := by
  unfold apply_user_enrichment
  cases o.queryUser <;> rfl

theorem apply_hash_sha (ev : EdrProcessEvent) :
    (apply_hash_placeholder ev).sha256
      = (if ev.executable_path ≠ "" then List.replicate 32 0 else ev.sha256) := by
  unfold apply_hash_placeholder
  split <;> rfl

theorem apply_hash_exec (ev : EdrProcessEvent) :
    (apply_hash_placeholder ev).executable_path = ev.executable_path := by
  unfold apply_hash_placeholder
  split <;> rfl

theorem apply_hash_name (ev : EdrProcessEvent) :
    (apply_hash_placeholder ev).process_name = ev.process_name := by
  unfold apply_hash_placeholder
  split <;> rfl

theorem apply_hash_cl (ev : EdrProcessEvent) :
    (apply_hash_placeholder ev).command_line = ev.command_line := by
  unfold apply_hash_placeholder
  split <;> rfl

theorem apply_hash_user (ev : EdrProcessEvent) :
    (apply_hash_placeholder ev).username = ev.username := by
  unfold apply_hash_placeholder
  split <;> rfl

/-! ## Claim theorems: parser/enricher -/

/-- C5 counterexample: on a concrete START record whose handle is obtained
and whose user-identity query fails, the username is left at its empty
default and the path enrichment still proceeds, but the consumer's
`parse_errors` counter is NOT incremented — refuting the claim that each
failed enrichment step increments the parse-error counter. -/
theorem claim_C5_counterexample :
    (etw_parse_process_start etw_process_consumer_create c5Record
        c5Oracles).2.1.username = "" ∧
    (etw_parse_process_start etw_process_consumer_create c5Record
        c5Oracles).2.1.executable_path = "C:\\w\\a.exe" ∧
    ¬ ((etw_parse_process_start etw_process_consumer_create c5Record
        c5Oracles).2.2.1.parse_errors
      = etw_process_consumer_create.parse_errors + 1) := by
  decide

/-- C5 (amended): for every START record whose process handle is obtained,
each of the four enrichment steps is independently best-effort — a failure
of one step does not abort the remaining steps and leaves the
corresponding field at its default empty/zeroed value (in this source the
command line is an always-succeeding placeholder and the hash is an
always-zero placeholder) — and the consumer's parse-error counter is left
unchanged: the source increments it only when no handle can be
obtained. -/
theorem claim_C5 (c : EtwProcessConsumer) (rec : EventRecord)
    (o : ParseOracles) (hdl : Nat)
    (hsome : (etw_get_process_handle c rec.processId o.currentTime
        o.openProcess).1 = some hdl) :
    (etw_parse_process_start c rec o).1 = EDR_SUCCESS ∧
    (etw_parse_process_start c rec o).2.1.executable_path
      = o.queryPath.getD "" ∧
    (etw_parse_process_start c rec o).2.1.username = o.queryUser.getD "" ∧
    (etw_parse_process_start c rec o).2.1.command_line
      = get_process_commandline rec.processId ∧
    (etw_parse_process_start c rec o).2.1.sha256 = List.replicate 32 0 ∧
    (o.queryPath = none →
      (etw_parse_process_start c rec o).2.1.process_name = "") ∧
    (etw_parse_process_start c rec o).2.2.1.parse_errors = c.parse_errors := by
  have hcnt := (etw_get_process_handle_counters c rec.processId o.currentTime
    o.openProcess).1
  unfold etw_parse_process_start
  dsimp only
  rw [hsome]
  dsimp only
  refine ⟨rfl, ?_, ?_, ?_, ?_, ?_, hcnt⟩
  · rw [apply_hash_exec, apply_user_exec, apply_cl_exec, apply_name_exec,
        apply_path_executable]
    congr 1
    split <;> rfl
  · rw [apply_hash_user, apply_user_username, apply_cl_user, apply_name_user,
        apply_path_user]
    congr 1
    split <;> rfl
  · rw [apply_hash_cl, apply_user_cl, apply_cl_cl]
  · rw [apply_hash_sha, apply_user_sha, apply_cl_sha, apply_name_sha,
        apply_path_sha]
    split <;> first | rfl | (split <;> rfl)
  · intro hqp
    rw [apply_hash_name, apply_user_name, apply_cl_name,
        apply_path_of_none o _ hqp]
    have hpe : (if 4 ≤ rec.userDataLength
        then { zeroEvent with
               timestamp := rec.timestamp, pid := rec.processId,
               event_type := EDR_PROCESS_START, ppid := rec.userData.headD 0 }
        else { zeroEvent with
               timestamp := rec.timestamp, pid := rec.processId,
               event_type := EDR_PROCESS_START } : EdrProcessEvent
        ).executable_path = "" := by
      split <;> rfl
    rw [apply_name_of_empty _ hpe]
    split <;> rfl

theorem claim_C5_witness :
    (etw_get_process_handle etw_process_consumer_create c5Record.processId
        c5Oracles.currentTime c5Oracles.openProcess).1 = some 11 ∧
    (etw_parse_process_start etw_process_consumer_create c5Record
        c5Oracles).2.1.executable_path = c5Oracles.queryPath.getD "" ∧
    (etw_parse_process_start etw_process_consumer_create c5Record
        c5Oracles).2.1.username = c5Oracles.queryUser.getD "" ∧
    (etw_parse_process_start etw_process_consumer_create c5Record
        c5Oracles).2.2.1.parse_errors
      = etw_process_consumer_create.parse_errors := by
  have hsome : (etw_get_process_handle etw_process_consumer_create
      c5Record.processId c5Oracles.currentTime c5Oracles.openProcess).1
      = some 11 := by decide
  have H := claim_C5 etw_process_consumer_create c5Record c5Oracles 11 hsome
  exact ⟨hsome, H.2.1, H.2.2.1, H.2.2.2.2.2.2⟩

/-- C8: for every START record (opcode 1) whose pid yields no process
handle (the pid is not cached and `OpenProcess` returns NULL), the parser
sets the `"[Access Denied]"` sentinel as the process name, still returns
`EDR_SUCCESS` with the header fields (timestamp, pid, event type, and the
parent pid when the payload is long enough), increments the parse-error
counter, and the event callback pushes exactly this event into the
transport queue (appending it to the buffer's FIFO contents when the
buffer is not full). -/
theorem claim_C8 (c : EtwProcessConsumer) (b : EventBuffer)
    (rec : EventRecord) (o : ParseOracles) (hop : rec.opcode = 1)
    (hopen : o.openProcess = none)
    (hmiss : cache_find c.handle_cache c.cache_used rec.processId = none)
    (hb : b.wf) (hnf : event_buffer_is_full b = false) :
    (etw_parse_process_start c rec o).1 = EDR_SUCCESS ∧
    (etw_parse_process_start c rec o).2.1.process_name = "[Access Denied]" ∧
    (etw_parse_process_start c rec o).2.1.timestamp = rec.timestamp ∧
    (etw_parse_process_start c rec o).2.1.pid = rec.processId ∧
    (etw_parse_process_start c rec o).2.1.event_type = EDR_PROCESS_START ∧
    (etw_parse_process_start c rec o).2.1.ppid =
      (if 4 ≤ rec.userDataLength then rec.userData.headD 0 else 0) ∧
    (etw_parse_process_start c rec o).2.2.1.parse_errors
      = c.parse_errors + 1 ∧
    bufContents (etw_process_event_callback c b rec o).2.1
      = bufContents b ++ [(etw_parse_process_start c rec o).2.1] := by
  have hfull : (b.write_pos + 1) % EVENT_BUFFER_SIZE ≠ b.read_pos := by
    simpa [event_buffer_is_full] using hnf
  have hcall : etw_get_process_handle c rec.processId o.currentTime
      o.openProcess = (none, c, []) := by
    rw [hopen]
    exact etw_get_process_handle_none c rec.processId o.currentTime hmiss
  have hmiss1 : cache_find ({ c with total_events := c.total_events + 1 }
      : EtwProcessConsumer).handle_cache
      ({ c with total_events := c.total_events + 1 }
      : EtwProcessConsumer).cache_used rec.processId = none := hmiss
  have hcall1 : etw_get_process_handle
      { c with total_events := c.total_events + 1 } rec.processId
      o.currentTime o.openProcess
      = (none, { c with total_events := c.total_events + 1 }, []) := by
    rw [hopen]
    exact etw_get_process_handle_none _ rec.processId o.currentTime hmiss1
  unfold etw_process_event_callback etw_parse_process_start
  dsimp only
  rw [hcall, hcall1, if_pos hop]
  dsimp only
  rw [if_pos rfl]
  refine ⟨rfl, rfl, ?_, ?_, ?_, ?_, rfl, ?_⟩
  · split <;> rfl
  · split <;> rfl
  · split <;> rfl
  · split <;> rfl
  · exact bufContents_push b _ hb hfull

theorem claim_C8_witness :
    c8Record.opcode = 1 ∧ c8Oracles.openProcess = none ∧
    cache_find etw_process_consumer_create.handle_cache
      etw_process_consumer_create.cache_used c8Record.processId = none ∧
    event_buffer_create.wf ∧
    event_buffer_is_full event_buffer_create = false ∧
    (etw_parse_process_start etw_process_consumer_create c8Record
        c8Oracles).2.1.process_name = "[Access Denied]" ∧
    bufContents (etw_process_event_callback etw_process_consumer_create
        event_buffer_create c8Record c8Oracles).2.1
      = bufContents event_buffer_create
        ++ [(etw_parse_process_start etw_process_consumer_create c8Record
              c8Oracles).2.1] := by
  have h1 : c8Record.opcode = 1 := rfl
  have h2 : c8Oracles.openProcess = none := rfl
  have h3 : cache_find etw_process_consumer_create.handle_cache
      etw_process_consumer_create.cache_used c8Record.processId = none := rfl
  have h4 : event_buffer_create.wf := by decide
  have h5 : event_buffer_is_full event_buffer_create = false := by decide
  have H := claim_C8 etw_process_consumer_create event_buffer_create
    c8Record c8Oracles h1 h2 h3 h4 h5
  exact ⟨h1, h2, h3, h4, h5, H.2.1, H.2.2.2.2.2.2.2⟩

/-! ## Claim theorems: session controller -/

theorem consume_thread_exit_abnormal_lt (s : EtwSession) (status : Nat)
    (h1 : status ≠ ERROR_SUCCESS) (h2 : status ≠ ERROR_CANCELLED)
    (hlt : s.restart_count < ETW_MAX_RESTART_RETRY) :
    consume_thread_exit s status =
      ({ s with is_running := false, restart_count := s.restart_count + 1 },
       true) := by
  unfold consume_thread_exit
  rw [if_pos ⟨h1, h2⟩]
  dsimp only
  rw [if_pos hlt]

theorem consume_thread_exit_abnormal_ge (s : EtwSession) (status : Nat)
    (h1 : status ≠ ERROR_SUCCESS) (h2 : status ≠ ERROR_CANCELLED)
    (hge : ¬ s.restart_count < ETW_MAX_RESTART_RETRY) :
    consume_thread_exit s status = ({ s with is_running := false }, false) := by
  unfold consume_thread_exit
  rw [if_pos ⟨h1, h2⟩]
  dsimp only
  rw [if_neg hge]

/-- C6: `etw_session_stop` discards the result of
`WaitForSingleObject(thread, 5000)`: its outcome is completely independent
of whether the consumption thread exited within the 5-second bound, and on
a concrete running session whose thread does NOT exit within the bound
(with `ControlTraceW` succeeding) the call still returns `EDR_SUCCESS`.
The fatal teardown condition is silently swallowed, contradicting the
specified behaviour. -/
theorem claim_C6 :
    (∀ (s : EtwSession) (x y : Bool) (k : Nat),
      etw_session_stop s { threadExitedInBound := x, controlTraceStatus := k }
        = etw_session_stop s
            { threadExitedInBound := y, controlTraceStatus := k }) ∧
    etw_session_stop (⟨9, 7, true, true, 0⟩ : EtwSession)
        { threadExitedInBound := false, controlTraceStatus := ERROR_SUCCESS }
      = (EDR_SUCCESS, (⟨0, 0, false, false, 0⟩ : EtwSession)) :=
  ⟨fun _ _ _ _ => rfl, by decide⟩

/-- C7: for every session, the restart counter never exceeds
`ETW_MAX_RESTART_RETRY` (3); every abnormal consumption-thread exit
(status other than `ERROR_SUCCESS` and `ERROR_CANCELLED`) marks the
session not running; and across 4 consecutive abnormal exits from a fresh
counter, the restart branch is taken on the first three exits but NOT on
the 4th: the session ends permanently stopped with the counter saturated
at 3. -/
theorem claim_C7 :
    (∀ (s : EtwSession) (status : Nat),
      s.restart_count ≤ ETW_MAX_RESTART_RETRY →
      (consume_thread_exit s status).1.restart_count
        ≤ ETW_MAX_RESTART_RETRY) ∧
    (∀ (s : EtwSession) (status : Nat),
      status ≠ ERROR_SUCCESS → status ≠ ERROR_CANCELLED →
      (consume_thread_exit s status).1.is_running = false) ∧
    (∀ (s0 : EtwSession) (st1 st2 st3 st4 : Nat),
      st1 ≠ ERROR_SUCCESS → st1 ≠ ERROR_CANCELLED →
      st2 ≠ ERROR_SUCCESS → st2 ≠ ERROR_CANCELLED →
      st3 ≠ ERROR_SUCCESS → st3 ≠ ERROR_CANCELLED →
      st4 ≠ ERROR_SUCCESS → st4 ≠ ERROR_CANCELLED →
      s0.restart_count = 0 →
      (consume_thread_exit s0 st1).2 = true ∧
      (consume_thread_exit (consume_thread_exit s0 st1).1 st2).2 = true ∧
      (consume_thread_exit (consume_thread_exit
        (consume_thread_exit s0 st1).1 st2).1 st3).2 = true ∧
      (consume_thread_exit (consume_thread_exit (consume_thread_exit
        (consume_thread_exit s0 st1).1 st2).1 st3).1 st4).2 = false ∧
      (consume_thread_exit (consume_thread_exit (consume_thread_exit
        (consume_thread_exit s0 st1).1 st2).1 st3).1 st4).1.is_running
        = false ∧
      (consume_thread_exit (consume_thread_exit (consume_thread_exit
        (consume_thread_exit s0 st1).1 st2).1 st3).1 st4).1.restart_count
        = ETW_MAX_RESTART_RETRY) := by
  have hM : ETW_MAX_RESTART_RETRY = 3 := rfl
  refine ⟨?_, ?_, ?_⟩
  · intro s status hle
    unfold consume_thread_exit
    dsimp only
    split
    · split <;> dsimp only <;> omega
    · exact hle
  · intro s status h1 h2
    unfold consume_thread_exit
    rw [if_pos ⟨h1, h2⟩]
    dsimp only
    split <;> rfl
  · intro s0 st1 st2 st3 st4 h1 h1' h2 h2' h3 h3' h4 h4' h0
    rw [consume_thread_exit_abnormal_lt s0 st1 h1 h1' (by omega)]
    dsimp only
    rw [consume_thread_exit_abnormal_lt _ st2 h2 h2' (by dsimp only; omega)]
    dsimp only
    rw [consume_thread_exit_abnormal_lt _ st3 h3 h3' (by dsimp only; omega)]
    dsimp only
    rw [consume_thread_exit_abnormal_ge _ st4 h4 h4' (by dsimp only; omega)]
    refine ⟨rfl, rfl, rfl, rfl, rfl, ?_⟩
    dsimp only
    omega

theorem claim_C7_witness :
    (consume_thread_exit (consume_thread_exit (consume_thread_exit
      (consume_thread_exit (⟨1, 1, true, true, 0⟩ : EtwSession) 31).1
        31).1 31).1 31).2 = false ∧
    (consume_thread_exit (consume_thread_exit (consume_thread_exit
      (consume_thread_exit (⟨1, 1, true, true, 0⟩ : EtwSession) 31).1
        31).1 31).1 31).1.restart_count = ETW_MAX_RESTART_RETRY := by
  have H := claim_C7.2.2 (⟨1, 1, true, true, 0⟩ : EtwSession) 31 31 31 31
    (by decide) (by decide) (by decide) (by decide) (by decide) (by decide)
    (by decide) (by decide) rfl
  exact ⟨H.2.2.2.1, H.2.2.2.2.2⟩

/-! ## Claim theorems: generic ring buffer -/

/-- C10: `ring_buffer_create` returns NULL for every capacity that is not
a power of two (including zero) without attempting any allocation, and for
every power-of-two capacity with both allocations succeeding it returns a
buffer with `mask = capacity - 1` and `head = tail = 0` (slots zeroed by
`calloc`). -/
theorem claim_C10 :
    (∀ (capacity : Nat) (a b : Bool), is_power_of_two capacity = false →
      ring_buffer_create capacity a b = (none, 0)) ∧
    (∀ capacity : Nat, is_power_of_two capacity = true →
      ring_buffer_create capacity true true =
        (some ⟨fun _ => none, capacity, capacity - 1, 0, 0⟩, 2)) := by
  constructor
  · intro capacity a b hnp
    unfold ring_buffer_create
    rw [if_pos (by simp [hnp])]
  · intro capacity hp
    simp [ring_buffer_create, hp]

theorem claim_C10_witness :
    is_power_of_two 0 = false ∧ is_power_of_two 3 = false ∧
    is_power_of_two 8 = true ∧
    ring_buffer_create 0 true true = (none, 0) ∧
    ring_buffer_create 3 true true = (none, 0) ∧
    ring_buffer_create 8 true true = (some ⟨fun _ => none, 8, 7, 0, 0⟩, 2) := by
  refine ⟨by decide, by decide, by decide, ?_, ?_, ?_⟩
  · exact claim_C10.1 0 true true (by decide)
  · exact claim_C10.1 3 true true (by decide)
  · exact claim_C10.2 8 (by decide)
